import Mathlib

/-
Shallow embedding of the moka concurrent cache core
(src/sync/base_cache.rs, src/sync/invalidator.rs, src/policy.rs).

Machine integers are modelled as Nat; quanta::Instant values are their
as_u64 tick representation (a Nat), Duration values are tick counts.
The u64::MAX "unset" sentinel of the two atomic entry timestamps is
modelled as Option Nat (none = unset), matching the Option-valued
last_accessed / last_modified accessors used throughout the source.
The concurrent segmented hash map is modelled as an association list
with HashMap semantics (at most one live binding per key), and clock
reads are passed in as explicit now arguments.
-/

set_option autoImplicit false

namespace Moka

universe u v

/-- Numeric constants from src/sync/base_cache.rs lines 33-47. -/
def MAX_SYNC_REPEATS : Nat := 4

/-- Read log flush point, src/sync/base_cache.rs line 35. -/
def READ_LOG_FLUSH_POINT : Nat := 512

/-- Write log flush point, src/sync/base_cache.rs line 38. -/
def WRITE_LOG_FLUSH_POINT : Nat := 512

/-- Write log low water mark = flush point / 2, src/sync/base_cache.rs line 39. -/
def WRITE_LOG_LOW_WATER_MARK : Nat := WRITE_LOG_FLUSH_POINT / 2

/-- Modulus of a u64 counter (used by the wrap-around predicate-id counter). -/
def U64_LIMIT : Nat := 2 ^ 64

/-- Modulus of the u8 serial counter used by do_insert_with_hash. -/
def U8_LIMIT : Nat := 256

/-- MAX_RETRY for predicate-id allocation, src/sync/invalidator.rs line 113. -/
def MAX_RETRY : Nat := 10000

/-- MAX_CONSECUTIVE_RETRIES in Inner::admit, src/sync/base_cache.rs line 852. -/
def MAX_CONSECUTIVE_RETRIES : Nat := 5

/-- Modelled from the spec: a cached value record (ValueEntry). It owns the
user value, the admitted flag (false until maintenance placed it in a deque)
and the two atomic timestamps, whose u64::MAX unset sentinel is modelled by
Option (none = unset). Deque-node back-pointers are not part of the model. -/
structure ValueEntry (V : Type v) where
  value : V
  is_admitted : Bool
  last_accessed : Option Nat
  last_modified : Option Nat

/-- ReadOp record emitted by the read path (src/sync/mod.rs usage in
base_cache.rs get_with_hash): Hit carries the entry and the read timestamp. -/
inductive ReadOp (V : Type v) where
  | Miss (hash : Nat)
  | Hit (hash : Nat) (entry : ValueEntry V) (now : Nat)

/-- is_expired_entry_ao, src/sync/base_cache.rs lines 1216-1231, applied to
the entry's last_accessed timestamp. -/
def is_expired_entry_ao (time_to_idle : Option Nat) (valid_after : Nat)
    (last_accessed : Option Nat) (now : Nat) : Bool :=
  match last_accessed with
  | some ts =>
    if ts < valid_after then true
    else
      match time_to_idle with
      | some tti => decide (ts + tti ≤ now)
      | none => false
  | none => false

/-- is_expired_entry_wo, src/sync/base_cache.rs lines 1234-1249, applied to
the entry's last_modified timestamp. -/
def is_expired_entry_wo (time_to_live : Option Nat) (valid_after : Nat)
    (last_modified : Option Nat) (now : Nat) : Bool :=
  match last_modified with
  | some ts =>
    if ts < valid_after then true
    else
      match time_to_live with
      | some ttl => decide (ts + ttl ≤ now)
      | none => false
  | none => false

/-- PredicateImpl, src/sync/invalidator.rs lines 279-297. The predicate
function is modelled as a Bool-valued function; oldest / newest are the
u64 range-memoization atomics (initialised to u64::MAX and u64::MIN). -/
structure PredicateImpl (K : Type u) (V : Type v) where
  f : K → V → Bool
  registered_at : Nat
  oldest : Nat
  newest : Nat

/-- PredicateImpl::new, src/sync/invalidator.rs lines 289-296. -/
def PredicateImpl.new {K : Type u} {V : Type v} (f : K → V → Bool)
    (registered_at : Nat) : PredicateImpl K V :=
  { f := f, registered_at := registered_at, oldest := U64_LIMIT - 1, newest := 0 }

/-- PredicateImpl::is_applicable, src/sync/invalidator.rs lines 300-304:
last_modified <= registered_at && (last_modified.as_u64() < oldest
|| last_modified.as_u64() > newest). -/
def PredicateImpl.is_applicable {K : Type u} {V : Type v}
    (p : PredicateImpl K V) (last_modified : Nat) : Bool :=
  decide (last_modified ≤ p.registered_at) &&
    (decide (last_modified < p.oldest) || decide (last_modified > p.newest))

/-- PredicateImplLite, src/sync/invalidator.rs lines 313-320: the scan-task
snapshot form of a predicate, with plain Instant fields. -/
structure PredicateImplLite (K : Type u) (V : Type v) where
  f : K → V → Bool
  registered_at : Nat
  oldest : Nat
  newest : Nat

/-- PredicateImplLite::is_applicable, src/sync/invalidator.rs lines 334-337:
last_modified <= registered_at && (last_modified < oldest
|| last_modified > newest), comparing Instants directly. -/
def PredicateImplLite.is_applicable {K : Type u} {V : Type v}
    (p : PredicateImplLite K V) (last_modified : Nat) : Bool :=
  decide (last_modified ≤ p.registered_at) &&
    (decide (last_modified < p.oldest) || decide (last_modified > p.newest))

/-- The condition the spec ascribes to predicate applicability, written from
the spec text of section 4.6 for comparison with the two source forms. -/
def applicableSpec (registered_at oldest newest last_modified : Nat) : Prop :=
  last_modified ≤ registered_at ∧
    (last_modified < oldest ∨ newest < last_modified)

/-- Invalidator state, src/sync/invalidator.rs lines 63-73: the predicate
registry (HashMap from u64 id, modelled as an association list with at most
one binding per id), the is_empty shortcut flag, and the wrap-around id
counter last_key (initialised to u64::MAX). Thread-pool plumbing, the task
slot and the weak cache pointer are modelled separately where needed. -/
structure Invalidator (K : Type u) (V : Type v) where
  predicates : List (Nat × PredicateImpl K V)
  is_empty_flag : Bool
  last_key : Nat

/-- Invalidator::new registry fields, src/sync/invalidator.rs lines 85-102. -/
def Invalidator.new {K : Type u} {V : Type v} : Invalidator K V :=
  { predicates := [], is_empty_flag := true, last_key := U64_LIMIT - 1 }

/-- Membership test of an id in the registry (HashMap::contains_key). -/
def containsId {K : Type u} {V : Type v}
    (preds : List (Nat × PredicateImpl K V)) (id : Nat) : Bool :=
  preds.any (fun p => p.1 == id)

/-- Registration error type, src/sync/invalidator.rs lines 473-479. -/
inductive PredicateRegistrationError where
  | WriteOrderQueueDisabled
  | NoSpaceLeft
deriving DecidableEq

/-- The retry loop of Invalidator::register_predicate,
src/sync/invalidator.rs lines 108-133, by fuel on the remaining tries
(MAX_RETRY - tries). Each iteration performs the wrapping fetch_add on
last_key; a collision consumes one try, an unused id inserts the predicate,
clears the is_empty flag and returns the id. -/
def registerAux {K : Type u} {V : Type v} (f : K → V → Bool)
    (registered_at : Nat) :
    Nat → Invalidator K V →
      Except PredicateRegistrationError Nat × Invalidator K V
  | 0, inv => (Except.error PredicateRegistrationError.NoSpaceLeft, inv)
  | fuel + 1, inv =>
    if containsId inv.predicates inv.last_key then
      registerAux f registered_at fuel
        { predicates := inv.predicates, is_empty_flag := inv.is_empty_flag,
          last_key := (inv.last_key + 1) % U64_LIMIT }
    else
      (Except.ok inv.last_key,
       { predicates :=
           (inv.last_key, PredicateImpl.new f registered_at) :: inv.predicates,
         is_empty_flag := false,
         last_key := (inv.last_key + 1) % U64_LIMIT })

/-- Invalidator::register_predicate, src/sync/invalidator.rs lines 108-133. -/
def register_predicate {K : Type u} {V : Type v} (f : K → V → Bool)
    (registered_at : Nat) (inv : Invalidator K V) :
    Except PredicateRegistrationError Nat × Invalidator K V :=
  registerAux f registered_at MAX_RETRY inv

/-- Invalidator::remove_predicate, src/sync/invalidator.rs lines 135-141:
remove the binding, and set the is_empty flag when the registry emptied. -/
def remove_predicate {K : Type u} {V : Type v} (id : Nat)
    (inv : Invalidator K V) : Invalidator K V :=
  let preds := inv.predicates.filter (fun p => !(p.1 == id))
  { inv with
      predicates := preds,
      is_empty_flag := if preds.isEmpty then true else inv.is_empty_flag }

/-- Invalidator::do_apply_predicates, src/sync/invalidator.rs lines 240-251:
true iff some predicate is applicable at the timestamp and matches. -/
def do_apply_predicates {K : Type u} {V : Type v}
    (preds : List (PredicateImpl K V)) (key : K) (value : V) (ts : Nat) : Bool :=
  preds.any (fun p => p.is_applicable ts && p.f key value)

/-- Invalidator::apply_predicates, src/sync/invalidator.rs lines 144-153:
short-circuit on the is_empty flag, then require a set last_modified. -/
def Invalidator.apply_predicates {K : Type u} {V : Type v}
    (inv : Invalidator K V) (key : K) (entry : ValueEntry V) : Bool :=
  if inv.is_empty_flag then false
  else
    match entry.last_modified with
    | some ts => do_apply_predicates (inv.predicates.map Prod.snd) key entry.value ts
    | none => false

/-- One registry operation for stating the is_empty flag invariant. -/
inductive InvOp (K : Type u) (V : Type v) where
  | register (f : K → V → Bool) (registered_at : Nat)
  | remove (id : Nat)

/-- Apply one registry operation to the invalidator state. -/
def applyInvOp {K : Type u} {V : Type v} (inv : Invalidator K V) :
    InvOp K V → Invalidator K V
  | InvOp.register f ra => (register_predicate f ra inv).2
  | InvOp.remove id => remove_predicate id inv

/-- Invalidator state after a sequence of register / remove calls, starting
from the freshly constructed invalidator. -/
def runInvOps {K : Type u} {V : Type v} (ops : List (InvOp K V)) :
    Invalidator K V :=
  ops.foldl applyInvOp Invalidator.new

/-- InternalInvalidationResult, src/sync/invalidator.rs lines 457-461,
with the invalidated entries kept abstract. -/
structure InternalInvalidationResult (E : Type u) where
  invalidated : List E
  is_truncated : Bool
  newest_timestamp : Option Nat

/-- InvalidationResult, src/sync/invalidator.rs lines 452-455. -/
structure InvalidationResult (E : Type u) where
  invalidated : List E
  is_done : Bool

/-- Invalidator::task_result, src/sync/invalidator.rs lines 199-232,
as a function of the taken task-result slot and the scan-context predicate
snapshot; returns the collected result and the new snapshot. -/
def task_result {K : Type u} {V : Type v} {E : Type u}
    (slot : Option (InternalInvalidationResult E))
    (ctx : List (PredicateImplLite K V)) :
    Option (InvalidationResult E) × List (PredicateImplLite K V) :=
  match slot with
  | none => (none, ctx)
  | some r =>
    if r.is_truncated then
      let ctx1 :=
        match r.newest_timestamp with
        | some ts => ctx.filter (fun p => decide (ts ≤ p.registered_at))
        | none => ctx
      (some { invalidated := r.invalidated, is_done := ctx1.isEmpty }, ctx1)
    else
      (some { invalidated := r.invalidated, is_done := true }, [])

/-- One run of the on_insert or on_modify closure passed by
BaseCache::do_insert_with_hash to insert_with_or_modify (the closures may
run several times under optimistic contention); a modify run sees the old
entry, modelled abstractly by E. -/
inductive ClosureCall (E : Type u) where
  | insert
  | modify (old_entry : E)
deriving DecidableEq

/-- The stashing of (serial, op) tuples by the two closures of
do_insert_with_hash, src/sync/base_cache.rs lines 237-276: op1 is the last
insert stash, op2 the last modify stash, each carrying the serial drawn from
the shared wrapping AtomicU8 counter (call number mod 256). -/
def stashAux {E : Type u} :
    List (ClosureCall E) → Nat → Option Nat × Option (Nat × E) →
      Option Nat × Option (Nat × E)
  | [], _, acc => acc
  | ClosureCall.insert :: rest, k, (_, o2) =>
      stashAux rest (k + 1) (some (k % U8_LIMIT), o2)
  | ClosureCall.modify old :: rest, k, (o1, _) =>
      stashAux rest (k + 1) (o1, some (k % U8_LIMIT, old))

/-- The (op1, op2) pair left by a sequence of closure runs, counter from 0. -/
def stashOps {E : Type u} (calls : List (ClosureCall E)) :
    Option Nat × Option (Nat × E) :=
  stashAux calls 0 (none, none)

/-- The WriteOp chosen by do_insert_with_hash, identified by its kind and
serial (each closure run builds a distinct entry / op). -/
inductive ReturnedOp (E : Type u) where
  | ins (serial : Nat)
  | upd (serial : Nat) (old_entry : E)
deriving DecidableEq

/-- Serial number carried by a returned op. -/
def ReturnedOp.serial {E : Type u} : ReturnedOp E → Nat
  | ReturnedOp.ins c => c
  | ReturnedOp.upd c _ => c

/-- The final match of BaseCache::do_insert_with_hash,
src/sync/base_cache.rs lines 278-293, over the stashed ops of a closure-run
trace. The second component records on which old entry unset_q_nodes was
called (the severing of its deque-node back-pointers); none means no call.
The Rust (None, None) arm is unreachable! and is modelled as none. -/
def do_insert_with_hash {E : Type u} (calls : List (ClosureCall E)) :
    Option (ReturnedOp E × Option E) :=
  match stashOps calls with
  | (some c1, none) => some (ReturnedOp.ins c1, none)
  | (none, some (c2, old)) => some (ReturnedOp.upd c2 old, some old)
  | (some c1, some (c2, old)) =>
    if c1 > c2 then some (ReturnedOp.ins c1, none)
    else some (ReturnedOp.upd c2 old, some old)
  | (none, none) => none

/-- Channel lengths observed by Inner::sync when it re-evaluates should_sync
after a pass (and when it picks the returned pace). Concurrent producers may
refill the channels between observations, so the lengths are an oracle
indexed by the number of completed passes. -/
structure ChLens where
  rlen : Nat
  wlen : Nat
deriving DecidableEq

/-- The should_sync re-evaluation of Inner::sync, src/sync/base_cache.rs
lines 664-665: some channel has reached its flush point. -/
def aboveFlush (c : ChLens) : Bool :=
  decide (READ_LOG_FLUSH_POINT ≤ c.rlen) || decide (WRITE_LOG_FLUSH_POINT ≤ c.wlen)

/-- The drain loop of Inner::sync, src/sync/base_cache.rs lines 653-666:
while should_sync && calls <= max_repeats, run one pass (apply_reads then
apply_writes), increment calls, recompute should_sync from the channel
lengths observed after the pass. Fuel is max_repeats + 1 - calls, so the
fuel-zero exit is exactly the calls > max_repeats exit. Returns the number
of executed passes and the final should_sync. -/
def syncLoopAux (obs : Nat → ChLens) : Nat → Nat → Bool → Nat × Bool
  | 0, calls, should_sync => (calls, should_sync)
  | fuel + 1, calls, should_sync =>
    if should_sync then
      syncLoopAux obs fuel (calls + 1) (aboveFlush (obs (calls + 1)))
    else (calls, should_sync)

/-- SyncPace, from the housekeeper interface used at src/sync/base_cache.rs
lines 688-695. -/
inductive SyncPace where
  | Fast
  | Normal
deriving DecidableEq

/-- The drain loop plus the returned pace of Inner::sync,
src/sync/base_cache.rs lines 639-696 (eviction and invalidation do not
consume the op channels and are modelled elsewhere): Fast when should_sync
is still set, Normal when the write channel is at or below the low water
mark, otherwise no pace change. Returns (passes, pace). -/
def sync (max_repeats : Nat) (obs : Nat → ChLens) : Nat × Option SyncPace :=
  let r := syncLoopAux obs (max_repeats + 1) 0 true
  let pace :=
    if r.2 then some SyncPace.Fast
    else if (obs r.1).wlen ≤ WRITE_LOG_LOW_WATER_MARK then some SyncPace.Normal
    else none
  (r.1, pace)

/-- Modelled from the spec: an access-order deque node (KeyHashDate without
the shared timestamp pointer), carrying the key handle and its hash. -/
structure AoNode (K : Type u) where
  key : K
  hash : Nat
deriving DecidableEq

/-- Modelled from the spec: the four intrusive deques (window, probation,
protected, write-order) as lists from LRU front to MRU back; write-order
nodes are reduced to their key handles. -/
structure Deques (K : Type u) where
  window : List (AoNode K)
  probation : List (AoNode K)
  protectedDeq : List (AoNode K)
  write_order : List K
deriving DecidableEq

/-- EntrySizeAndFrequency, src/sync/base_cache.rs lines 377-398. -/
structure EntrySizeAndFrequency where
  weight : Nat
  freq : Nat
deriving DecidableEq

/-- AdmissionResult, src/sync/base_cache.rs lines 417-425. -/
inductive AdmissionResult (K : Type u) where
  | Admitted (victim_nodes : List (AoNode K)) (skipped_nodes : List (AoNode K))
  | Rejected (skipped_nodes : List (AoNode K))
deriving DecidableEq

/-- The victim-aggregation loop of Inner::admit, src/sync/base_cache.rs
lines 845-889, walking probation from the LRU front: stop when the victims
weigh enough, early-break on candidate.freq < victims.freq, skip nodes whose
entry is gone from the map (counting consecutive retries up to
MAX_CONSECUTIVE_RETRIES), else accumulate weight and frequency. Returns the
aggregated victims and the victim_nodes / skipped_nodes lists. -/
def admissionAux {K : Type u} {V : Type v} (cand : EntrySizeAndFrequency)
    (cacheGet : K → Option V) (weigh : K → V → Nat) (freqOf : Nat → Nat) :
    List (AoNode K) → Nat → EntrySizeAndFrequency → List (AoNode K) →
      List (AoNode K) →
      EntrySizeAndFrequency × List (AoNode K) × List (AoNode K)
  | [], _, victims, victim_nodes, skipped_nodes =>
      (victims, victim_nodes, skipped_nodes)
  | v :: rest, retries, victims, victim_nodes, skipped_nodes =>
    if victims.weight < cand.weight then
      if cand.freq < victims.freq then (victims, victim_nodes, skipped_nodes)
      else
        match cacheGet v.key with
        | some e =>
          admissionAux cand cacheGet weigh freqOf rest 0
            { weight := victims.weight + weigh v.key e,
              freq := victims.freq + freqOf v.hash }
            (victim_nodes ++ [v]) skipped_nodes
        | none =>
          if retries + 1 > MAX_CONSECUTIVE_RETRIES then
            (victims, victim_nodes, skipped_nodes ++ [v])
          else
            admissionAux cand cacheGet weigh freqOf rest (retries + 1)
              victims victim_nodes (skipped_nodes ++ [v])
    else (victims, victim_nodes, skipped_nodes)

/-- Inner::admit, src/sync/base_cache.rs lines 845-904 (admit is a reserved
word here, hence the name admission): aggregate victims, then admit iff
victims.weight >= candidate.weight && candidate.freq > victims.freq. -/
def admission {K : Type u} {V : Type v} (cand : EntrySizeAndFrequency)
    (cacheGet : K → Option V) (weigh : K → V → Nat) (freqOf : Nat → Nat)
    (probation : List (AoNode K)) : AdmissionResult K :=
  match admissionAux cand cacheGet weigh freqOf probation 0
      { weight := 0, freq := 0 } [] [] with
  | (victims, victim_nodes, skipped_nodes) =>
    if cand.weight ≤ victims.weight ∧ victims.freq < cand.freq then
      AdmissionResult.Admitted victim_nodes skipped_nodes
    else AdmissionResult.Rejected skipped_nodes

/-- Weight charged to a probation node by the aggregation loop: the weight
of its entry when the map still holds one, 0 otherwise (skipped nodes add
nothing). -/
def nodeVicWeight {K : Type u} {V : Type v} (cacheGet : K → Option V)
    (weigh : K → V → Nat) (n : AoNode K) : Nat :=
  match cacheGet n.key with
  | some e => weigh n.key e
  | none => 0

/-- Sum of the weights of a list of victim nodes. -/
def sumVicWeights {K : Type u} {V : Type v} (cacheGet : K → Option V)
    (weigh : K → V → Nat) (ns : List (AoNode K)) : Nat :=
  (ns.map (nodeVicWeight cacheGet weigh)).sum

/-- Sum of the sketch frequencies of a list of victim nodes. -/
def sumVicFreqs {K : Type u} (freqOf : Nat → Nat) (ns : List (AoNode K)) : Nat :=
  (ns.map (fun n => freqOf n.hash)).sum

/-- The Inner state the claims touch, src/sync/base_cache.rs lines 431-448:
the hash map as an association list, the deques, the published weighted
size, the two expiration policies, the valid_after epoch, the weigher and
the invalidator. -/
structure Inner (K : Type u) (V : Type v) where
  max_capacity : Option Nat
  weighted_size : Nat
  cache : List (K × ValueEntry V)
  deqs : Deques K
  time_to_live : Option Nat
  time_to_idle : Option Nat
  valid_after : Nat
  weighter : Option (K → V → Nat)
  invalidator_enabled : Bool
  invalidator : Option (Invalidator K V)

/-- Map lookup (SegmentedHashMap::get / get_key_value value part). -/
def lookup {K : Type u} {V : Type v} [DecidableEq K]
    (cache : List (K × ValueEntry V)) (k : K) : Option (ValueEntry V) :=
  (cache.find? (fun p => p.1 == k)).map Prod.snd

/-- Map removal (SegmentedHashMap::remove): no binding for the key remains. -/
def removeKey {K : Type u} {V : Type v} [DecidableEq K]
    (cache : List (K × ValueEntry V)) (k : K) : List (K × ValueEntry V) :=
  cache.filter (fun p => !(p.1 == k))

/-- Replace the binding of a key (models a mutation through the shared Arc
of the entry reaching the binding held by the map). -/
def updateEntry {K : Type u} {V : Type v} [DecidableEq K]
    (cache : List (K × ValueEntry V)) (k : K) (e : ValueEntry V) :
    List (K × ValueEntry V) :=
  cache.map (fun p => if p.1 == k then (p.1, e) else p)

/-- WeightedSize::weigh, src/sync/base_cache.rs lines 358-361: the
configured weigher or the default weight 1. -/
def Inner.weigh {K : Type u} {V : Type v} (inner : Inner K V)
    (k : K) (v : V) : Nat :=
  match inner.weighter with
  | some w => w k v
  | none => 1

/-- Saturating u64 addition (WeightedSize::saturating_add). -/
def satAdd (a b : Nat) : Nat := min (a + b) (U64_LIMIT - 1)

/-- Inner::has_enough_capacity, src/sync/base_cache.rs lines 708-712. -/
def has_enough_capacity {K : Type u} {V : Type v} (inner : Inner K V)
    (candidate_weight : Nat) (ws : Nat) : Bool :=
  match inner.max_capacity with
  | some limit => decide (ws + candidate_weight ≤ limit)
  | none => true

/-- Inner::is_write_order_queue_enabled, src/sync/base_cache.rs lines 557-560. -/
def is_write_order_queue_enabled {K : Type u} {V : Type v}
    (inner : Inner K V) : Bool :=
  inner.time_to_live.isSome || inner.invalidator_enabled

/-- Modelled from the spec: remove the (unique) node of a key from an
access-order deque (Deques::unlink_ao on the entry's node). -/
def eraseNodeByKey {K : Type u} [DecidableEq K] (deq : List (AoNode K))
    (key : K) : List (AoNode K) :=
  deq.eraseP (fun n => n.key == key)

/-- Modelled from the spec: move the node of a key to the MRU back of an
access-order deque (Deque::move_to_back through the entry's node pointer). -/
def moveToBackIn {K : Type u} [DecidableEq K] (deq : List (AoNode K))
    (key : K) : List (AoNode K) :=
  match deq.find? (fun n => n.key == key) with
  | some n => (deq.eraseP (fun m => m.key == key)) ++ [n]
  | none => deq

/-- Modelled from the spec: move a given node to the MRU back of a deque
(used for skipped probation nodes). -/
def moveNodeToBack {K : Type u} [DecidableEq K] (deq : List (AoNode K))
    (n : AoNode K) : List (AoNode K) :=
  if deq.contains n then deq.erase n ++ [n] else deq

/-- Modelled from the spec: Deques::move_to_back_ao, acting on whichever
access-order deque holds the entry's node (at most one, by invariant 1). -/
def Deques.moveToBackAo {K : Type u} [DecidableEq K] (deqs : Deques K)
    (key : K) : Deques K :=
  { deqs with
      window := moveToBackIn deqs.window key,
      probation := moveToBackIn deqs.probation key,
      protectedDeq := moveToBackIn deqs.protectedDeq key }

/-- Modelled from the spec: Deques::move_to_back_wo. -/
def Deques.moveToBackWo {K : Type u} [DecidableEq K] (deqs : Deques K)
    (key : K) : Deques K :=
  { deqs with
      write_order :=
        if deqs.write_order.contains key then
          deqs.write_order.erase key ++ [key]
        else deqs.write_order }

/-- Inner::handle_remove, src/sync/base_cache.rs lines 928-941: when the
entry is admitted, clear the flag, subtract its weight (saturating) and
unlink its nodes from the access-order and write-order deques. The
unset_q_nodes call only clears back-pointers, which the model does not
carry. -/
def handle_remove {K : Type u} {V : Type v} [DecidableEq K] (key : K)
    (entry : ValueEntry V) (inner : Inner K V) : Inner K V :=
  if entry.is_admitted then
    { inner with
        weighted_size := inner.weighted_size - inner.weigh key entry.value,
        deqs :=
          { window := eraseNodeByKey inner.deqs.window key,
            probation := eraseNodeByKey inner.deqs.probation key,
            protectedDeq := eraseNodeByKey inner.deqs.protectedDeq key,
            write_order := inner.deqs.write_order.eraseP (fun k => k == key) } }
  else inner

/-- Inner::handle_admit, src/sync/base_cache.rs lines 906-926: count the
weight, push a probation MRU node and (when the write-order queue is
enabled) a write-order node, and set the admitted flag (a mutation through
the shared Arc, reflected into the map binding). -/
def handleAdmission {K : Type u} {V : Type v} [DecidableEq K]
    (inner : Inner K V) (kh : K × Nat) (entry : ValueEntry V)
    (policy_weight : Nat) : Inner K V :=
  let inner1 := { inner with
      weighted_size := satAdd inner.weighted_size policy_weight,
      deqs := { inner.deqs with
          probation := inner.deqs.probation ++ [{ key := kh.1, hash := kh.2 }] } }
  let inner2 :=
    if is_write_order_queue_enabled inner1 then
      { inner1 with deqs := { inner1.deqs with
          write_order := inner1.deqs.write_order ++ [kh.1] } }
    else inner1
  { inner2 with
      cache := updateEntry inner2.cache kh.1 { entry with is_admitted := true } }

/-- Removal of the aggregated victims on an Admitted result,
src/sync/base_cache.rs lines 793-807: remove each victim from the map and
unlink it; a victim already gone is pushed to the skipped nodes. -/
def removeVictims {K : Type u} {V : Type v} [DecidableEq K]
    (inner : Inner K V) (victim_nodes skipped : List (AoNode K)) :
    Inner K V × List (AoNode K) :=
  victim_nodes.foldl
    (fun acc v =>
      match lookup acc.1.cache v.key with
      | some vic_entry =>
        (handle_remove v.key vic_entry
          { acc.1 with cache := removeKey acc.1.cache v.key }, acc.2)
      | none => (acc.1, acc.2 ++ [v]))
    (inner, skipped)

/-- Inner::handle_upsert, src/sync/base_cache.rs lines 746-825. The entry's
timestamps are set (the mutation reaches the map binding through the shared
Arc, sequential interleaving assumed); an already admitted entry is an
update and only moves to the MRU ends; otherwise the candidate is admitted
outright under free capacity, rejected outright when heavier than
max_capacity, and otherwise put through TinyLFU admission. Skipped
probation nodes are moved to the MRU back, never dropped. -/
def handle_upsert {K : Type u} {V : Type v} [DecidableEq K]
    (inner : Inner K V) (freqOf : Nat → Nat) (kh : K × Nat)
    (entry : ValueEntry V) (ts : Nat) : Inner K V :=
  let e := { entry with last_accessed := some ts, last_modified := some ts }
  let s1 := { inner with cache := updateEntry inner.cache kh.1 e }
  if e.is_admitted then
    { s1 with deqs := (s1.deqs.moveToBackAo kh.1).moveToBackWo kh.1 }
  else
    let policy_weight := s1.weigh kh.1 e.value
    if has_enough_capacity s1 policy_weight s1.weighted_size then
      handleAdmission s1 kh e policy_weight
    else if (match s1.max_capacity with
             | some max => decide (policy_weight > max)
             | none => false) then
      { s1 with cache := removeKey s1.cache kh.1 }
    else
      let cand : EntrySizeAndFrequency :=
        { weight := policy_weight, freq := freqOf kh.2 }
      match admission cand (fun k => lookup s1.cache k)
          (fun k ve => s1.weigh k ve.value) freqOf s1.deqs.probation with
      | AdmissionResult.Admitted victim_nodes skipped =>
        let rs := removeVictims s1 victim_nodes skipped
        let s2 := handleAdmission rs.1 kh e policy_weight
        { s2 with deqs := { s2.deqs with
            probation := rs.2.foldl moveNodeToBack s2.deqs.probation } }
      | AdmissionResult.Rejected skipped =>
        let s2 := { s1 with cache := removeKey s1.cache kh.1 }
        { s2 with deqs := { s2.deqs with
            probation := skipped.foldl moveNodeToBack s2.deqs.probation } }

/-- Inner::is_invalidated_entry, src/sync/base_cache.rs lines 592-600. -/
def is_invalidated_entry {K : Type u} {V : Type v} (inner : Inner K V)
    (key : K) (entry : ValueEntry V) : Bool :=
  if inner.invalidator_enabled then
    match inner.invalidator with
    | some inv => inv.apply_predicates key entry
    | none => false
  else false

/-- BaseCache::get_with_hash, src/sync/base_cache.rs lines 129-164: probe
the map; on a found entry, a TTL / TTI / valid_after expiration or a
matching invalidation predicate yields a recorded Miss and no value,
otherwise the value is cloned and a Hit is recorded. Returns the value
and the recorded ReadOp. -/
def get_with_hash {K : Type u} {V : Type v} [DecidableEq K]
    (inner : Inner K V) (key : K) (hash : Nat) (now : Nat) :
    Option V × ReadOp V :=
  match lookup inner.cache key with
  | none => (none, ReadOp.Miss hash)
  | some entry =>
    if is_expired_entry_wo inner.time_to_live inner.valid_after
          entry.last_modified now
        || is_expired_entry_ao inner.time_to_idle inner.valid_after
          entry.last_accessed now
        || is_invalidated_entry inner key entry then
      (none, ReadOp.Miss hash)
    else
      (some entry.value, ReadOp.Hit hash entry now)

/-- Invariant tying the serials stashed by the closures of
do_insert_with_hash to distinct call indices below the call count. -/
def stashInv {E : Type u} (n : Nat) (r : Option Nat × Option (Nat × E)) : Prop :=
  (∀ c1, r.1 = some c1 → ∃ i, i < n ∧ c1 = i % U8_LIMIT) ∧
  (∀ c2 old, r.2 = some (c2, old) → ∃ j, j < n ∧ c2 = j % U8_LIMIT) ∧
  (∀ c1 c2 old, r.1 = some c1 → r.2 = some (c2, old) →
    ∃ i j, i < n ∧ j < n ∧ i ≠ j ∧ c1 = i % U8_LIMIT ∧ c2 = j % U8_LIMIT)

/-- Concrete entry used to evaluate the read-path theorem: TTL-expired at
time 20 under a 5-tick TTL. -/
def entC1 : ValueEntry Nat :=
  { value := 42, is_admitted := false,
    last_accessed := some 10, last_modified := some 10 }

/-- Concrete cache state used to evaluate the read-path theorem. -/
def innerC1 : Inner Nat Nat :=
  { max_capacity := none, weighted_size := 0, cache := [(1, entC1)],
    deqs := { window := [], probation := [], protectedDeq := [], write_order := [] },
    time_to_live := some 5, time_to_idle := none, valid_after := 0,
    weighter := none, invalidator_enabled := false, invalidator := none }

/-- Concrete oversize entry (weight 20 under capacity 10, weigher = value). -/
def entC8 : ValueEntry Nat :=
  { value := 20, is_admitted := false, last_accessed := none, last_modified := none }

/-- Concrete cache state used to evaluate the oversize-rejection theorem. -/
def innerC8 : Inner Nat Nat :=
  { max_capacity := some 10, weighted_size := 0, cache := [(1, entC8)],
    deqs := { window := [], probation := [], protectedDeq := [], write_order := [] },
    time_to_live := none, time_to_idle := none, valid_after := 0,
    weighter := some (fun _ v => v), invalidator_enabled := false,
    invalidator := none }

/-- Concrete closure-run trace: one insert run then one modify run. -/
def callsC4 : List (ClosureCall Nat) :=
  [ClosureCall.insert, ClosureCall.modify 7]

/-- Concrete scan-snapshot predicate for evaluating the task_result theorem. -/
def predLiteC6 : PredicateImplLite Nat Nat :=
  { f := fun _ _ => true, registered_at := 5, oldest := 0, newest := 0 }

/-- Concrete truncated task result for evaluating the task_result theorem. -/
def resC6 : InternalInvalidationResult Nat :=
  { invalidated := [3], is_truncated := true, newest_timestamp := some 4 }

/-- Channel-length oracle reporting empty channels after every pass. -/
def obsEmpty : Nat → ChLens := fun _ => { rlen := 0, wlen := 0 }

/-- Channel-length oracle reporting channels at the flush point after every
pass (concurrent producers keep refilling them). -/
def obsFull : Nat → ChLens := fun _ => { rlen := 512, wlen := 512 }

/-- C9: a registered predicate is applicable to an entry last modified at ts
iff ts is at or before its registration time and strictly outside its
memoized oldest / newest scanned range; both the registry form
(PredicateImpl::is_applicable) and the scan-snapshot form
(PredicateImplLite::is_applicable) compute exactly this condition. -/
theorem is_applicable_matches_spec {K : Type u} {V : Type v}
    (p : PredicateImpl K V) (q : PredicateImplLite K V) (ts : Nat) :
    (p.is_applicable ts = true ↔
      applicableSpec p.registered_at p.oldest p.newest ts) ∧
    (q.is_applicable ts = true ↔
      applicableSpec q.registered_at q.oldest q.newest ts) := by
  constructor
  · simp [PredicateImpl.is_applicable, applicableSpec]
  · simp [PredicateImplLite.is_applicable, applicableSpec]

/-- C6: when the collected task result is truncated with a newest scanned
timestamp, task_result shrinks the scan-context predicate snapshot to
exactly the predicates registered at or after that timestamp and reports
is_done iff the shrunken snapshot is empty; when not truncated, the
snapshot is cleared and is_done is true. -/
theorem task_result_spec {K : Type u} {V : Type v} {E : Type u}
    (r : InternalInvalidationResult E) (ctx : List (PredicateImplLite K V))
    (ts : Nat) :
    (r.is_truncated = true → r.newest_timestamp = some ts →
      ((task_result (some r) ctx).2 =
          ctx.filter (fun p => decide (ts ≤ p.registered_at)) ∧
        (∀ p, p ∈ (task_result (some r) ctx).2 ↔
          p ∈ ctx ∧ ts ≤ p.registered_at) ∧
        (task_result (some r) ctx).1 =
          some { invalidated := r.invalidated,
                 is_done := ((task_result (some r) ctx).2).isEmpty })) ∧
    (r.is_truncated = false →
      ((task_result (some r) ctx).2 = [] ∧
        (task_result (some r) ctx).1 =
          some { invalidated := r.invalidated, is_done := true })) := by
  constructor
  · intro htr hts
    have h2 : (task_result (some r) ctx).2 =
        ctx.filter (fun p => decide (ts ≤ p.registered_at)) := by
      simp [task_result, htr, hts]
    refine ⟨h2, ?_, ?_⟩
    · intro p
      rw [h2]
      simp [List.mem_filter]
    · rw [h2]
      simp [task_result, htr, hts]
  · intro htr
    constructor
    · simp [task_result, htr]
    · simp [task_result, htr]

/-- C6 witness: the task_result theorem evaluated on a concrete truncated
result and a one-predicate snapshot surviving the shrink. -/
theorem task_result_spec_witness :
    resC6.is_truncated = true ∧ resC6.newest_timestamp = some 4 ∧
    (task_result (some resC6) [predLiteC6]).2 =
      [predLiteC6].filter (fun p => decide ((4:Nat) ≤ p.registered_at)) ∧
    (task_result (some resC6) [predLiteC6]).1 =
      some { invalidated := resC6.invalidated,
             is_done := ((task_result (some resC6) [predLiteC6]).2).isEmpty } := by
  have h := (task_result_spec resC6 [predLiteC6] 4).1 rfl rfl
  exact ⟨rfl, rfl, h.1, h.2.2⟩

/-- The success case of the registration retry loop: an ok id was unused,
is inserted in front of the registry, and the is_empty flag is cleared. -/
theorem registerAux_ok {K : Type u} {V : Type v} (f : K → V → Bool)
    (ra : Nat) :
    ∀ (fuel : Nat) (inv inv' : Invalidator K V) (id : Nat),
      registerAux f ra fuel inv = (Except.ok id, inv') →
      containsId inv.predicates id = false ∧
      inv'.predicates = (id, PredicateImpl.new f ra) :: inv.predicates ∧
      inv'.is_empty_flag = false := by
  intro fuel
  induction fuel with
  | zero =>
    intro inv inv' id h
    simp [registerAux] at h
  | succ n ih =>
    intro inv inv' id h
    rw [registerAux] at h
    by_cases hc : containsId inv.predicates inv.last_key
    · rw [if_pos hc] at h
      have := ih _ _ _ h
      exact this
    · rw [if_neg hc] at h
      simp only [Prod.mk.injEq, Except.ok.injEq] at h
      obtain ⟨hid, hinv⟩ := h
      subst hid
      subst hinv
      exact ⟨by simpa using hc, rfl, rfl⟩

/-- The failure case of the registration retry loop: NoSpaceLeft is
returned iff every one of the fuel consecutive ids drawn from the wrapping
counter is already present in the registry. -/
theorem registerAux_err_iff {K : Type u} {V : Type v} (f : K → V → Bool)
    (ra : Nat) :
    ∀ (fuel : Nat) (inv : Invalidator K V), inv.last_key < U64_LIMIT →
      ((registerAux f ra fuel inv).1 =
          Except.error PredicateRegistrationError.NoSpaceLeft ↔
        ∀ i, i < fuel →
          containsId inv.predicates ((inv.last_key + i) % U64_LIMIT) = true) := by
  intro fuel
  induction fuel with
  | zero =>
    intro inv hL
    simp [registerAux]
  | succ n ih =>
    intro inv hL
    rw [registerAux]
    by_cases hc : containsId inv.predicates inv.last_key
    · rw [if_pos hc]
      have hL1 : ((inv.last_key + 1) % U64_LIMIT) < U64_LIMIT :=
        Nat.mod_lt _ (by simp [U64_LIMIT])
      rw [ih { predicates := inv.predicates, is_empty_flag := inv.is_empty_flag,
               last_key := (inv.last_key + 1) % U64_LIMIT } hL1]
      constructor
      · intro hall i hi
        cases i with
        | zero =>
          simpa [Nat.mod_eq_of_lt hL] using hc
        | succ j =>
          have hj := hall j (Nat.lt_of_succ_lt_succ hi)
          have harith : ((inv.last_key + 1) % U64_LIMIT + j) % U64_LIMIT
              = (inv.last_key + (j + 1)) % U64_LIMIT := by
            rw [Nat.mod_add_mod]
            congr 1
            omega
          rw [harith] at hj
          exact hj
      · intro hall i hi
        have hj := hall (i + 1) (Nat.succ_lt_succ hi)
        have harith : ((inv.last_key + 1) % U64_LIMIT + i) % U64_LIMIT
            = (inv.last_key + (i + 1)) % U64_LIMIT := by
          rw [Nat.mod_add_mod]
          congr 1
          omega
        rw [harith]
        exact hj
    · rw [if_neg hc]
      simp only [Prod.fst]
      constructor
      · intro h
        exact absurd h (by simp)
      · intro hall
        have h0 := hall 0 (Nat.succ_pos n)
        rw [Nat.add_zero, Nat.mod_eq_of_lt hL] at h0
        exact absurd h0 (by simp [hc])

/-- C7: register_predicate returns Ok with a freshly allocated id (absent
before, present after, is_empty cleared) whenever an unused id is found,
and returns NoSpaceLeft exactly when all MAX_RETRY = 10000 consecutive ids
drawn from the wrap-around counter collide with registered ids. -/
theorem register_predicate_spec {K : Type u} {V : Type v} (f : K → V → Bool)
    (ra : Nat) (inv : Invalidator K V) (hL : inv.last_key < U64_LIMIT) :
    (∀ id, (register_predicate f ra inv).1 = Except.ok id →
      containsId inv.predicates id = false ∧
      containsId (register_predicate f ra inv).2.predicates id = true ∧
      (register_predicate f ra inv).2.is_empty_flag = false) ∧
    ((register_predicate f ra inv).1 =
        Except.error PredicateRegistrationError.NoSpaceLeft ↔
      ((List.range MAX_RETRY).all
        (fun i => containsId inv.predicates
          ((inv.last_key + i) % U64_LIMIT))) = true) := by
  constructor
  · intro id hok
    have hpair : register_predicate f ra inv
        = (Except.ok id, (register_predicate f ra inv).2) := by
      rw [← hok]
    have h := registerAux_ok f ra MAX_RETRY inv
      (register_predicate f ra inv).2 id hpair
    refine ⟨h.1, ?_, h.2.2⟩
    rw [h.2.1]
    simp [containsId]
  · simp only [register_predicate]
    rw [registerAux_err_iff f ra MAX_RETRY inv hL]
    simp [List.all_eq_true]

/-- C7 witness: registering into the fresh invalidator finds the very first
counter value u64::MAX unused, inserts it and clears the flag. -/
theorem register_predicate_spec_witness :
    (Invalidator.new : Invalidator Nat Nat).last_key < U64_LIMIT ∧
    containsId (Invalidator.new : Invalidator Nat Nat).predicates
      (U64_LIMIT - 1) = false ∧
    containsId (register_predicate (fun _ _ => true) 3
      (Invalidator.new : Invalidator Nat Nat)).2.predicates
      (U64_LIMIT - 1) = true ∧
    (register_predicate (fun _ _ => true) 3
      (Invalidator.new : Invalidator Nat Nat)).2.is_empty_flag = false := by
  have h := (register_predicate_spec (fun _ _ => true) 3
    (Invalidator.new : Invalidator Nat Nat) (by decide)).1
    (U64_LIMIT - 1) rfl
  exact ⟨by decide, h.1, h.2.1, h.2.2⟩

/-- The registration retry loop preserves agreement between the is_empty
flag and registry emptiness. -/
theorem registerAux_flag_agrees {K : Type u} {V : Type v} (f : K → V → Bool)
    (ra : Nat) :
    ∀ (fuel : Nat) (inv : Invalidator K V),
      inv.is_empty_flag = inv.predicates.isEmpty →
      (registerAux f ra fuel inv).2.is_empty_flag
        = (registerAux f ra fuel inv).2.predicates.isEmpty := by
  intro fuel
  induction fuel with
  | zero =>
    intro inv h
    simpa [registerAux] using h
  | succ n ih =>
    intro inv h
    rw [registerAux]
    by_cases hc : containsId inv.predicates inv.last_key
    · rw [if_pos hc]
      exact ih _ h
    · rw [if_neg hc]
      simp

/-- remove_predicate preserves agreement between the is_empty flag and
registry emptiness. -/
theorem remove_predicate_flag_agrees {K : Type u} {V : Type v} (id : Nat)
    (inv : Invalidator K V)
    (h : inv.is_empty_flag = inv.predicates.isEmpty) :
    (remove_predicate id inv).is_empty_flag
      = (remove_predicate id inv).predicates.isEmpty := by
  rw [remove_predicate]
  by_cases he : (inv.predicates.filter (fun p => !(p.1 == id))).isEmpty
  · simp [he]
  · simp only [he, if_false]
    rw [h]
    have hne : inv.predicates ≠ [] := by
      intro hnil
      rw [hnil] at he
      simp at he
    simp [List.isEmpty_iff, hne, he]

/-- Any sequence of register / remove operations preserves the agreement. -/
theorem runInvOps_flag_agrees_from {K : Type u} {V : Type v} :
    ∀ (ops : List (InvOp K V)) (inv : Invalidator K V),
      inv.is_empty_flag = inv.predicates.isEmpty →
      (ops.foldl applyInvOp inv).is_empty_flag
        = (ops.foldl applyInvOp inv).predicates.isEmpty := by
  intro ops
  induction ops with
  | nil =>
    intro inv h
    simpa using h
  | cons op rest ih =>
    intro inv h
    rw [List.foldl_cons]
    apply ih
    cases op with
    | register f ra => exact registerAux_flag_agrees f ra MAX_RETRY inv h
    | remove id => exact remove_predicate_flag_agrees id inv h

/-- C10: the invalidator starts with the is_empty flag set, and after any
sequence of register_predicate / remove_predicate calls the flag agrees
with the emptiness of the predicate registry; hence apply_predicates
takes its is_empty short-circuit (returning false) only in states where
no predicates are registered. -/
theorem invalidator_is_empty_agrees {K : Type u} {V : Type v}
    (ops : List (InvOp K V)) :
    (Invalidator.new : Invalidator K V).is_empty_flag = true ∧
    (runInvOps ops).is_empty_flag = (runInvOps ops).predicates.isEmpty := by
  refine ⟨rfl, ?_⟩
  exact runInvOps_flag_agrees_from ops Invalidator.new rfl

/-- The stashing fold maintains the serial invariant: every stashed serial
comes from a call index below the running call count, and the two stashed
serials come from distinct call indices. -/
theorem stashAux_inv {E : Type u} :
    ∀ (calls : List (ClosureCall E)) (k : Nat)
      (o1 : Option Nat) (o2 : Option (Nat × E)),
      stashInv k (o1, o2) →
      stashInv (k + calls.length) (stashAux calls k (o1, o2)) := by
  intro calls
  induction calls with
  | nil =>
    intro k o1 o2 h
    simpa [stashAux] using h
  | cons c rest ih =>
    intro k o1 o2 h
    obtain ⟨h1, h2, h12⟩ := h
    have harith : (k + 1) + rest.length = k + (c :: rest).length := by
      simp
      omega
    cases c with
    | insert =>
      rw [stashAux]
      rw [← harith]
      apply ih
      refine ⟨?_, ?_, ?_⟩
      · intro c1 hc1
        simp only [Option.some.injEq] at hc1
        exact ⟨k, Nat.lt_succ_self k, hc1.symm⟩
      · intro c2 old hc2
        obtain ⟨j, hj, he⟩ := h2 c2 old hc2
        exact ⟨j, Nat.lt_succ_of_lt hj, he⟩
      · intro c1 c2 old hc1 hc2
        simp only [Option.some.injEq] at hc1
        obtain ⟨j, hj, he⟩ := h2 c2 old hc2
        exact ⟨k, j, Nat.lt_succ_self k, Nat.lt_succ_of_lt hj,
          fun hkj => absurd (hkj ▸ hj) (Nat.lt_irrefl k), hc1.symm, he⟩
    | modify old0 =>
      rw [stashAux]
      rw [← harith]
      apply ih
      refine ⟨?_, ?_, ?_⟩
      · intro c1 hc1
        obtain ⟨i, hi, he⟩ := h1 c1 hc1
        exact ⟨i, Nat.lt_succ_of_lt hi, he⟩
      · intro c2 old hc2
        simp only [Option.some.injEq, Prod.mk.injEq] at hc2
        exact ⟨k, Nat.lt_succ_self k, hc2.1.symm⟩
      · intro c1 c2 old hc1 hc2
        obtain ⟨i, hi, he⟩ := h1 c1 hc1
        simp only [Option.some.injEq, Prod.mk.injEq] at hc2
        exact ⟨i, k, Nat.lt_succ_of_lt hi, Nat.lt_succ_self k,
          fun hik => absurd (hik ▸ hi) (Nat.lt_irrefl k), he, hc2.1.symm⟩

/-- C4: when both closures of do_insert_with_hash stashed an outcome over a
realistic trace (at most 256 closure runs, so the wrapping u8 serials are
distinct), the returned WriteOp is the stashed one carrying the highest
serial; whenever the update outcome wins, unset_q_nodes severs the old
entry's deque-node back-pointers in the same return path. -/
theorem do_insert_with_hash_highest_serial {E : Type u}
    (calls : List (ClosureCall E)) (c1 c2 : Nat) (old : E)
    (hlen : calls.length ≤ U8_LIMIT)
    (h1 : (stashOps calls).1 = some c1)
    (h2 : (stashOps calls).2 = some (c2, old)) :
    c1 ≠ c2 ∧
    (do_insert_with_hash calls).map (fun r => r.1.serial) = some (max c1 c2) ∧
    (c1 < c2 →
      do_insert_with_hash calls = some (ReturnedOp.upd c2 old, some old)) ∧
    (c2 < c1 →
      do_insert_with_hash calls = some (ReturnedOp.ins c1, none)) := by
  have hbase : stashInv (E := E) 0 (none, none) := by
    refine ⟨?_, ?_, ?_⟩ <;> intro a
    · intro h
      simp at h
    · intro b h
      simp at h
    · intro b o h
      simp at h
  have hinv := stashAux_inv calls 0 none none hbase
  rw [Nat.zero_add] at hinv
  have hpair : stashOps calls = (some c1, some (c2, old)) := by
    rw [← h1, ← h2]
  obtain ⟨i, j, hi, hj, hij, he1, he2⟩ := hinv.2.2 c1 c2 old h1 h2
  have hne : c1 ≠ c2 := by
    rw [he1, he2, Nat.mod_eq_of_lt (Nat.lt_of_lt_of_le hi hlen),
      Nat.mod_eq_of_lt (Nat.lt_of_lt_of_le hj hlen)]
    exact hij
  have hres : do_insert_with_hash calls =
      (if c1 > c2 then some (ReturnedOp.ins c1, none)
       else some (ReturnedOp.upd c2 old, some old)) := by
    rw [do_insert_with_hash, hpair]
  refine ⟨hne, ?_, ?_, ?_⟩
  · rcases Nat.lt_or_ge c1 c2 with hlt | hge
    · rw [hres, if_neg (by omega)]
      simp [ReturnedOp.serial, Nat.max_eq_right (Nat.le_of_lt hlt)]
    · have hgt : c1 > c2 := by omega
      rw [hres, if_pos hgt]
      simp [ReturnedOp.serial, Nat.max_eq_left (Nat.le_of_lt hgt)]
  · intro hlt
    rw [hres, if_neg (by omega)]
  · intro hlt
    rw [hres, if_pos hlt]

/-- C4 witness: one insert run (serial 0) then one modify run (serial 1);
the update outcome wins and the old entry is severed. -/
theorem do_insert_with_hash_highest_serial_witness :
    callsC4.length ≤ U8_LIMIT ∧
    (stashOps callsC4).1 = some 0 ∧
    (stashOps callsC4).2 = some (1, 7) ∧
    do_insert_with_hash callsC4 = some (ReturnedOp.upd 1 7, some 7) := by
  refine ⟨by decide, rfl, rfl, ?_⟩
  exact (do_insert_with_hash_highest_serial callsC4 0 1 7
    (by decide) rfl rfl).2.2.1 (by decide)

/-- The drain loop never decreases the pass counter. -/
theorem syncLoopAux_ge (obs : Nat → ChLens) :
    ∀ (fuel calls : Nat) (ss : Bool),
      calls ≤ (syncLoopAux obs fuel calls ss).1 := by
  intro fuel
  induction fuel with
  | zero =>
    intro calls ss
    simp [syncLoopAux]
  | succ n ih =>
    intro calls ss
    rw [syncLoopAux]
    by_cases hss : ss
    · rw [if_pos hss]
      exact Nat.le_trans (Nat.le_succ calls) (ih (calls + 1) _)
    · rw [if_neg hss]

/-- The drain loop executes at most fuel more passes. -/
theorem syncLoopAux_le (obs : Nat → ChLens) :
    ∀ (fuel calls : Nat) (ss : Bool),
      (syncLoopAux obs fuel calls ss).1 ≤ calls + fuel := by
  intro fuel
  induction fuel with
  | zero =>
    intro calls ss
    simp [syncLoopAux]
  | succ n ih =>
    intro calls ss
    rw [syncLoopAux]
    by_cases hss : ss
    · rw [if_pos hss]
      exact Nat.le_trans (ih (calls + 1) _) (by omega)
    · rw [if_neg hss]
      simp

/-- When the loop variable matches the observation at the pass counter, the
final should_sync matches the observation at the final pass counter. -/
theorem syncLoopAux_final (obs : Nat → ChLens) :
    ∀ (fuel calls : Nat) (ss : Bool), ss = aboveFlush (obs calls) →
      (syncLoopAux obs fuel calls ss).2
        = aboveFlush (obs (syncLoopAux obs fuel calls ss).1) := by
  intro fuel
  induction fuel with
  | zero =>
    intro calls ss h
    simpa [syncLoopAux] using h
  | succ n ih =>
    intro calls ss h
    rw [syncLoopAux]
    by_cases hss : ss
    · rw [if_pos hss]
      exact ih (calls + 1) _ rfl
    · rw [if_neg hss]
      simpa using h

/-- Every pass strictly before the final one re-observed a channel at or
above its flush point (the loop only continued on such observations). -/
theorem syncLoopAux_cont (obs : Nat → ChLens) :
    ∀ (fuel calls : Nat) (ss : Bool), ss = aboveFlush (obs calls) →
      ∀ k, calls ≤ k → k < (syncLoopAux obs fuel calls ss).1 →
        aboveFlush (obs k) = true := by
  intro fuel
  induction fuel with
  | zero =>
    intro calls ss h k hk1 hk2
    simp [syncLoopAux] at hk2
    omega
  | succ n ih =>
    intro calls ss h k hk1 hk2
    rw [syncLoopAux] at hk2
    by_cases hss : ss
    · rw [if_pos hss] at hk2
      rcases Nat.eq_or_lt_of_le hk1 with heq | hlt
      · rw [← heq, ← h]
        exact hss
      · exact ih (calls + 1) _ rfl k hlt hk2
    · rw [if_neg hss] at hk2
      omega

/-- When the loop ends before exhausting its fuel, it ended because
should_sync went false. -/
theorem syncLoopAux_stop (obs : Nat → ChLens) :
    ∀ (fuel calls : Nat) (ss : Bool),
      (syncLoopAux obs fuel calls ss).1 < calls + fuel →
      (syncLoopAux obs fuel calls ss).2 = false := by
  intro fuel
  induction fuel with
  | zero =>
    intro calls ss h
    simp [syncLoopAux] at h
  | succ n ih =>
    intro calls ss h
    rw [syncLoopAux] at h ⊢
    by_cases hss : ss
    · rw [if_pos hss] at h ⊢
      exact ih (calls + 1) (aboveFlush (obs (calls + 1))) (by omega)
    · rw [if_neg hss]
      simpa using hss

/-- The first loop iteration always runs (should_sync starts true). -/
theorem sync_first_step (mrep : Nat) (obs : Nat → ChLens) :
    syncLoopAux obs (mrep + 1) 0 true
      = syncLoopAux obs mrep 1 (aboveFlush (obs 1)) := by
  rw [syncLoopAux]
  simp

/-- C3 counterexample: with both channels re-observed at the 512 flush
point after every pass, sync at MAX_SYNC_REPEATS = 4 executes 5 passes,
refuting the at-most-4 bound. -/
theorem sync_five_passes_counterexample :
    (sync MAX_SYNC_REPEATS obsFull).1 = 5 ∧
    ¬((sync MAX_SYNC_REPEATS obsFull).1 ≤ 4) := by
  constructor
  · rfl
  · decide

/-- C3 (amended): a sync cycle with max_repeats = MAX_SYNC_REPEATS = 4
executes between 1 and max_repeats + 1 = 5 passes of apply_reads followed
by apply_writes (the loop guard calls <= max_repeats admits one extra
pass); it continues past a pass only when some channel is re-observed at or
above its 512 flush point, and whenever it stops before exhausting the
repeats, both channels were observed below their flush points. -/
theorem sync_pass_count_bounds (obs : Nat → ChLens) :
    1 ≤ (sync MAX_SYNC_REPEATS obs).1 ∧
    (sync MAX_SYNC_REPEATS obs).1 ≤ MAX_SYNC_REPEATS + 1 ∧
    (∀ k, 1 ≤ k → k < (sync MAX_SYNC_REPEATS obs).1 →
      aboveFlush (obs k) = true) ∧
    ((sync MAX_SYNC_REPEATS obs).1 ≤ MAX_SYNC_REPEATS →
      aboveFlush (obs (sync MAX_SYNC_REPEATS obs).1) = false) := by
  have hfst : (sync MAX_SYNC_REPEATS obs).1
      = (syncLoopAux obs (MAX_SYNC_REPEATS + 1) 0 true).1 := rfl
  rw [hfst, sync_first_step]
  refine ⟨syncLoopAux_ge obs MAX_SYNC_REPEATS 1 _, ?_, ?_, ?_⟩
  · have := syncLoopAux_le obs MAX_SYNC_REPEATS 1 (aboveFlush (obs 1))
    omega
  · intro k hk1 hk2
    exact syncLoopAux_cont obs MAX_SYNC_REPEATS 1 _ rfl k hk1 hk2
  · intro hle
    have hstop := syncLoopAux_stop obs MAX_SYNC_REPEATS 1
      (aboveFlush (obs 1)) (by omega)
    have hfin := syncLoopAux_final obs MAX_SYNC_REPEATS 1
      (aboveFlush (obs 1)) rfl
    rw [hstop] at hfin
    exact hfin.symm

/-- C3 witness: with channels re-observed empty, the loop stops after a
single pass, with both channels below their flush points. -/
theorem sync_pass_count_bounds_witness :
    1 ≤ (sync MAX_SYNC_REPEATS obsEmpty).1 ∧
    (sync MAX_SYNC_REPEATS obsEmpty).1 ≤ MAX_SYNC_REPEATS + 1 ∧
    ((sync MAX_SYNC_REPEATS obsEmpty).1 ≤ MAX_SYNC_REPEATS) ∧
    aboveFlush (obsEmpty (sync MAX_SYNC_REPEATS obsEmpty).1) = false := by
  refine ⟨(sync_pass_count_bounds obsEmpty).1,
    (sync_pass_count_bounds obsEmpty).2.1, by decide, ?_⟩
  exact (sync_pass_count_bounds obsEmpty).2.2.2 (by decide)

/-- C5: the pace sync returns is Fast iff some channel was still at or
above its flush point when the drain loop ended; otherwise it is Normal
iff the write channel has fallen to or below the low-water mark
WRITE_LOG_LOW_WATER_MARK = 256; otherwise it is None, keeping the pace. -/
theorem sync_pace_spec (obs : Nat → ChLens) :
    ((sync MAX_SYNC_REPEATS obs).2 = some SyncPace.Fast ↔
      aboveFlush (obs (sync MAX_SYNC_REPEATS obs).1) = true) ∧
    ((sync MAX_SYNC_REPEATS obs).2 = some SyncPace.Normal ↔
      (aboveFlush (obs (sync MAX_SYNC_REPEATS obs).1) = false ∧
        (obs (sync MAX_SYNC_REPEATS obs).1).wlen ≤ WRITE_LOG_LOW_WATER_MARK)) ∧
    ((sync MAX_SYNC_REPEATS obs).2 = none ↔
      (aboveFlush (obs (sync MAX_SYNC_REPEATS obs).1) = false ∧
        WRITE_LOG_LOW_WATER_MARK < (obs (sync MAX_SYNC_REPEATS obs).1).wlen)) := by
  have hfst : (sync MAX_SYNC_REPEATS obs).1
      = (syncLoopAux obs (MAX_SYNC_REPEATS + 1) 0 true).1 := rfl
  have hsnd : (sync MAX_SYNC_REPEATS obs).2
      = (if (syncLoopAux obs (MAX_SYNC_REPEATS + 1) 0 true).2
            then some SyncPace.Fast
          else if (obs (syncLoopAux obs (MAX_SYNC_REPEATS + 1) 0 true).1).wlen
              ≤ WRITE_LOG_LOW_WATER_MARK then some SyncPace.Normal
          else none) := rfl
  have hfin : (syncLoopAux obs (MAX_SYNC_REPEATS + 1) 0 true).2
      = aboveFlush (obs (syncLoopAux obs (MAX_SYNC_REPEATS + 1) 0 true).1) := by
    rw [sync_first_step]
    exact syncLoopAux_final obs MAX_SYNC_REPEATS 1 (aboveFlush (obs 1)) rfl
  rw [hfst, hsnd, hfin]
  by_cases hab : aboveFlush
      (obs (syncLoopAux obs (MAX_SYNC_REPEATS + 1) 0 true).1)
  · rw [if_pos hab]
    simp [hab]
  · rw [if_neg hab]
    simp only [Bool.not_eq_true] at hab
    by_cases hlw : (obs (syncLoopAux obs (MAX_SYNC_REPEATS + 1) 0 true).1).wlen
        ≤ WRITE_LOG_LOW_WATER_MARK
    · rw [if_pos hlw]
      refine ⟨by simp [hab], by simp [hab, hlw], ?_⟩
      simp [hab]
      omega
    · rw [if_neg hlw]
      refine ⟨by simp [hab], by simp [hab, hlw], ?_⟩
      simp [hab]
      omega

/-- C1: whenever get_with_hash finds an entry whose last_modified precedes
valid_after, or whose TTL or TTI has elapsed, or to which some registered
predicate (in a well-formed enabled invalidator) is applicable and matches,
it records ReadOp::Miss and returns no value; it never returns the value of
such an expired or invalidated entry. -/
theorem get_with_hash_expired_miss {K : Type u} {V : Type v} [DecidableEq K]
    (inner : Inner K V) (key : K) (hash now : Nat) (entry : ValueEntry V)
    (hfound : lookup inner.cache key = some entry)
    (hcond :
      (∃ lm, entry.last_modified = some lm ∧ lm < inner.valid_after) ∨
      (∃ lm ttl, entry.last_modified = some lm ∧
        inner.time_to_live = some ttl ∧ lm + ttl ≤ now) ∨
      (∃ la tti, entry.last_accessed = some la ∧
        inner.time_to_idle = some tti ∧ la + tti ≤ now) ∨
      (∃ inv ts idp, inner.invalidator = some inv ∧
        inner.invalidator_enabled = true ∧
        inv.is_empty_flag = inv.predicates.isEmpty ∧
        entry.last_modified = some ts ∧
        idp ∈ inv.predicates ∧ idp.2.is_applicable ts = true ∧
        idp.2.f key entry.value = true)) :
    get_with_hash inner key hash now = (none, ReadOp.Miss hash) := by
  have hexp : (is_expired_entry_wo inner.time_to_live inner.valid_after
        entry.last_modified now
      || is_expired_entry_ao inner.time_to_idle inner.valid_after
        entry.last_accessed now
      || is_invalidated_entry inner key entry) = true := by
    rcases hcond with ⟨lm, hlm, hlt⟩ | ⟨lm, ttl, hlm, httl, hle⟩ |
      ⟨la, tti, hla, htti, hle⟩ | ⟨inv, ts, idp, hinv, hen, hwf, hlm, hmem, happ, hf⟩
    · have hwo : is_expired_entry_wo inner.time_to_live inner.valid_after
          entry.last_modified now = true := by
        rw [is_expired_entry_wo.eq_def, hlm]
        simp [hlt]
      simp [hwo]
    · have hwo : is_expired_entry_wo inner.time_to_live inner.valid_after
          entry.last_modified now = true := by
        rw [is_expired_entry_wo.eq_def, hlm, httl]
        by_cases hva : lm < inner.valid_after
        · simp [hva]
        · simp [hva, hle]
      simp [hwo]
    · have hao : is_expired_entry_ao inner.time_to_idle inner.valid_after
          entry.last_accessed now = true := by
        rw [is_expired_entry_ao.eq_def, hla, htti]
        by_cases hva : la < inner.valid_after
        · simp [hva]
        · simp [hva, hle]
      simp [hao]
    · have hflag : inv.is_empty_flag = false := by
        rw [hwf]
        cases hpreds : inv.predicates with
        | nil => rw [hpreds] at hmem; cases hmem
        | cons a l => simp
      have hinval : is_invalidated_entry inner key entry = true := by
        rw [is_invalidated_entry, hen, hinv]
        simp only [if_true]
        rw [Invalidator.apply_predicates, hflag]
        simp only [Bool.false_eq_true, if_false]
        rw [hlm]
        simp only [do_apply_predicates, List.any_eq_true]
        exact ⟨idp.2, List.mem_map_of_mem Prod.snd hmem, by simp [happ, hf]⟩
      simp [hinval]
  rw [get_with_hash, hfound]
  simp [hexp]

/-- C1 witness: a TTL-expired concrete entry (modified at 10, TTL 5, read
at 20) is reported as a Miss with no value. -/
theorem get_with_hash_expired_miss_witness :
    lookup innerC1.cache 1 = some entC1 ∧
    (entC1.last_modified = some 10 ∧ innerC1.time_to_live = some 5 ∧
      (10:Nat) + 5 ≤ 20) ∧
    get_with_hash innerC1 1 99 20 = (none, ReadOp.Miss 99) := by
  refine ⟨rfl, ⟨rfl, rfl, by decide⟩, ?_⟩
  exact get_with_hash_expired_miss innerC1 1 99 20 entC1 rfl
    (Or.inr (Or.inl ⟨10, 5, rfl, rfl, by decide⟩))

/-- The victim-aggregation loop keeps the running victim totals equal to
the summed weights and frequencies of the accumulated victim nodes. -/
theorem admissionAux_sums {K : Type u} {V : Type v}
    (cand : EntrySizeAndFrequency) (cacheGet : K → Option V)
    (weigh : K → V → Nat) (freqOf : Nat → Nat) :
    ∀ (nodes : List (AoNode K)) (retries : Nat)
      (victims : EntrySizeAndFrequency) (vn sn : List (AoNode K)),
      victims.weight = sumVicWeights cacheGet weigh vn →
      victims.freq = sumVicFreqs freqOf vn →
      ((admissionAux cand cacheGet weigh freqOf nodes retries
          victims vn sn).1.weight
        = sumVicWeights cacheGet weigh
          (admissionAux cand cacheGet weigh freqOf nodes retries
            victims vn sn).2.1 ∧
       (admissionAux cand cacheGet weigh freqOf nodes retries
          victims vn sn).1.freq
        = sumVicFreqs freqOf
          (admissionAux cand cacheGet weigh freqOf nodes retries
            victims vn sn).2.1) := by
  intro nodes
  induction nodes with
  | nil =>
    intro retries victims vn sn h1 h2
    rw [admissionAux]
    exact ⟨h1, h2⟩
  | cons v rest ih =>
    intro retries victims vn sn h1 h2
    rw [admissionAux]
    by_cases hlt : victims.weight < cand.weight
    · rw [if_pos hlt]
      by_cases hfr : cand.freq < victims.freq
      · rw [if_pos hfr]
        exact ⟨h1, h2⟩
      · rw [if_neg hfr]
        cases hget : cacheGet v.key with
        | some e =>
          apply ih
          · simp [sumVicWeights, nodeVicWeight, hget, h1]
          · simp [sumVicFreqs, h2]
        | none =>
          by_cases hret : retries + 1 > MAX_CONSECUTIVE_RETRIES
          · rw [if_pos hret]
            exact ⟨h1, h2⟩
          · rw [if_neg hret]
            exact ih (retries + 1) victims vn (sn ++ [v]) h1 h2
    · rw [if_neg hlt]
      exact ⟨h1, h2⟩

/-- C2: admission (Inner::admit) returns Admitted exactly when the victims
aggregated from the probation LRU end weigh at least the candidate's weight
AND the candidate's frequency strictly exceeds their aggregated frequency;
in every other case (including a frequency tie) it returns Rejected with
the skipped nodes. The aggregated totals are the sums over the returned
victim nodes. -/
theorem admission_decision {K : Type u} {V : Type v}
    (cand : EntrySizeAndFrequency) (cacheGet : K → Option V)
    (weigh : K → V → Nat) (freqOf : Nat → Nat)
    (probation : List (AoNode K)) (victims : EntrySizeAndFrequency)
    (vn sn : List (AoNode K))
    (hagg : admissionAux cand cacheGet weigh freqOf probation 0
        { weight := 0, freq := 0 } [] [] = (victims, vn, sn)) :
    victims.weight = sumVicWeights cacheGet weigh vn ∧
    victims.freq = sumVicFreqs freqOf vn ∧
    (admission cand cacheGet weigh freqOf probation
        = AdmissionResult.Admitted vn sn ↔
      (cand.weight ≤ victims.weight ∧ victims.freq < cand.freq)) ∧
    (¬(cand.weight ≤ victims.weight ∧ victims.freq < cand.freq) →
      admission cand cacheGet weigh freqOf probation
        = AdmissionResult.Rejected sn) := by
  have hsums := admissionAux_sums cand cacheGet weigh freqOf probation 0
    { weight := 0, freq := 0 } [] [] rfl rfl
  rw [hagg] at hsums
  have hadm : admission cand cacheGet weigh freqOf probation
      = (if cand.weight ≤ victims.weight ∧ victims.freq < cand.freq
         then AdmissionResult.Admitted vn sn
         else AdmissionResult.Rejected sn) := by
    rw [admission, hagg]
  refine ⟨hsums.1, hsums.2, ?_, ?_⟩
  · by_cases hcond : cand.weight ≤ victims.weight ∧ victims.freq < cand.freq
    · rw [hadm, if_pos hcond]
      simp [hcond]
    · rw [hadm, if_neg hcond]
      simp [hcond]
  · intro hcond
    rw [hadm, if_neg hcond]

/-- C2 witness: a zero-weight candidate with frequency 1 over an empty
probation deque aggregates empty victims and is admitted. -/
theorem admission_decision_witness :
    admissionAux { weight := 0, freq := 1 } (fun _ : Nat => (none : Option Nat))
        (fun _ _ => 1) (fun _ => 0) [] 0 { weight := 0, freq := 0 } [] []
      = ({ weight := 0, freq := 0 }, [], []) ∧
    admission { weight := 0, freq := 1 } (fun _ : Nat => (none : Option Nat))
        (fun _ _ => 1) (fun _ => 0) []
      = AdmissionResult.Admitted [] [] := by
  refine ⟨rfl, ?_⟩
  exact (admission_decision { weight := 0, freq := 1 }
    (fun _ : Nat => (none : Option Nat)) (fun _ _ => 1) (fun _ => 0) []
    { weight := 0, freq := 0 } [] [] rfl).2.2.1.mpr (by decide)

/-- After removing a key from the map model, lookups of that key fail. -/
theorem lookup_removeKey {K : Type u} {V : Type v} [DecidableEq K]
    (c : List (K × ValueEntry V)) (k : K) :
    lookup (removeKey c k) k = none := by
  have h : (removeKey c k).find? (fun p => p.1 == k) = none := by
    rw [List.find?_eq_none]
    intro x hx
    rw [removeKey, List.mem_filter] at hx
    simpa using hx.2
  rw [lookup, h]
  rfl

/-- The weigher is untouched by replacing the cache field. -/
theorem weigh_set_cache {K : Type u} {V : Type v}
    (inner : Inner K V) (c : List (K × ValueEntry V)) (k : K) (v : V) :
    Inner.weigh { inner with cache := c } k v = inner.weigh k v := rfl

/-- C8: during apply_writes, an Upsert of a not-yet-admitted entry whose
policy weight exceeds max_capacity is removed from the hash map by
handle_upsert and discarded: the key is absent from the map afterwards, no
deque changes, and the weighted size is unchanged, so after the maintenance
cycle the key is gone from the cache. -/
theorem handle_upsert_oversize {K : Type u} {V : Type v} [DecidableEq K]
    (inner : Inner K V) (freqOf : Nat → Nat) (kh : K × Nat)
    (entry : ValueEntry V) (ts : Nat) (m : Nat)
    (hadm : entry.is_admitted = false)
    (hmax : inner.max_capacity = some m)
    (hw : m < inner.weigh kh.1 entry.value) :
    lookup (handle_upsert inner freqOf kh entry ts).cache kh.1 = none ∧
    (handle_upsert inner freqOf kh entry ts).deqs = inner.deqs ∧
    (handle_upsert inner freqOf kh entry ts).weighted_size
      = inner.weighted_size := by
  have hple : ¬(inner.weighted_size + inner.weigh kh.1 entry.value ≤ m) := by
    omega
  have hres : handle_upsert inner freqOf kh entry ts
      = { inner with cache := removeKey (updateEntry inner.cache kh.1
          { entry with last_accessed := some ts,
                       last_modified := some ts }) kh.1 } := by
    rw [handle_upsert.eq_def]
    simp only [weigh_set_cache, hadm, Bool.false_eq_true, if_false,
      has_enough_capacity, hmax]
    rw [if_neg (by simpa using hple)]
    rw [if_pos (by simpa using hw)]
  refine ⟨?_, ?_, ?_⟩
  · rw [hres]
    exact lookup_removeKey _ kh.1
  · rw [hres]
  · rw [hres]

/-- C8 witness: the oversize theorem evaluated on a concrete bounded cache
(capacity 10, weigher = value) upserting a weight-20 entry. -/
theorem handle_upsert_oversize_witness :
    entC8.is_admitted = false ∧
    innerC8.max_capacity = some 10 ∧
    10 < innerC8.weigh 1 entC8.value ∧
    lookup (handle_upsert innerC8 (fun _ => 0) (1, 0) entC8 5).cache 1
      = none ∧
    (handle_upsert innerC8 (fun _ => 0) (1, 0) entC8 5).deqs
      = innerC8.deqs ∧
    (handle_upsert innerC8 (fun _ => 0) (1, 0) entC8 5).weighted_size
      = innerC8.weighted_size := by
  have h := handle_upsert_oversize innerC8 (fun _ => 0) (1, 0) entC8 5 10
    rfl rfl (by decide)
  exact ⟨rfl, rfl, by decide, h.1, h.2.1, h.2.2⟩

end Moka
